import Mathlib

/-!
Verification of the offline-first document store and sync engine of the
document-management-system repository.

The embedding models:
* `src/services/db.ts` — the IndexedDB-backed local record store
  (`saveDocument`, `updateDocument`, `getDocuments`, `getDocumentDetails`,
  `getPendingDocuments`, `getFailedDocuments`, `markAsSynced`, `markAsFailed`,
  `clearDatabase`);
* `src/App.tsx` — the sync engine loop (`processSyncBatch`, `handleSync`,
  `handleRetryFailed`);
* `src/backend/server.js` — the idempotent remote sync endpoint
  (`POST /api/v1/documents/sync`).

Both object stores use `keyPath: 'id'`, so `put` upserts by `id`.  A store is
modelled as a pair of lists of records; `put` removes any record with the same
`id` and appends the new one.  Readers of the store either filter, count, or
sort, so the residual list order carries no observable meaning (the source
itself sorts explicitly where order matters, and the `masterId` index `getAll`
order is treated as unspecified).
-/

namespace DocSys

/-- `syncStatus` union type `'pending' | 'synced' | 'failed'` from `src/types.ts`. -/
inductive SyncStatus
  | pending
  | synced
  | failed
deriving DecidableEq

/-- `DocMaster` from `src/types.ts`: the metadata header of one captured document. -/
structure DocMaster where
  id : String
  name : String
  gender : String
  dob : String
  age : String
  phone : String
  address : String
  refId : Option Nat
  createdAt : Nat
  syncStatus : SyncStatus
deriving DecidableEq

/-- `DocDetail` from `src/types.ts`: one ordered image belonging to a `DocMaster`. -/
structure DocDetail where
  id : String
  masterId : String
  sequence : Nat
  imageData : String
  mimeType : String
deriving DecidableEq

/-- The local IndexedDB database `DocDigitizeDB`: the `masters` and `details`
object stores (both with `keyPath: 'id'`). -/
structure Store where
  masters : List DocMaster
  details : List DocDetail
deriving DecidableEq

/-- `IDBObjectStore.put` on the `masters` store: upsert keyed on `id`. -/
def putMaster (l : List DocMaster) (m : DocMaster) : List DocMaster :=
  l.filter (fun x => x.id ≠ m.id) ++ [m]

/-- `IDBObjectStore.put` on the `details` store: upsert keyed on `id`. -/
def putDetail (l : List DocDetail) (d : DocDetail) : List DocDetail :=
  l.filter (fun x => x.id ≠ d.id) ++ [d]

/-- `IDBObjectStore.delete` on the `details` store by primary key. -/
def deleteDetail (l : List DocDetail) (key : String) : List DocDetail :=
  l.filter (fun x => x.id ≠ key)

/-- One buffered write request inside an IndexedDB transaction. -/
inductive TxnStep
  | putM (m : DocMaster)
  | putD (d : DocDetail)
  | delD (key : String)

/-- Effect of one buffered write request on the store. -/
def applyStep (s : Store) : TxnStep → Store
  | .putM m => { s with masters := putMaster s.masters m }
  | .putD d => { s with details := putDetail s.details d }
  | .delD k => { s with details := deleteDetail s.details k }

/-- Committing a transaction applies its buffered requests in order; an aborted
transaction applies none of them (IndexedDB rollback). -/
def commitSteps (s : Store) (steps : List TxnStep) : Store :=
  steps.foldl applyStep s

/-- `saveDocument` (`src/services/db.ts`): one readwrite transaction that `put`s
the master and `put`s each detail.  `put` (not `add`) means an existing record
under the same `id` is overwritten, and no pre-existing details are deleted. -/
def saveDocument (s : Store) (master : DocMaster) (details : List DocDetail) : Store :=
  commitSteps s ([TxnStep.putM master] ++ details.map TxnStep.putD)

/-- The primary keys returned by `detailStore.index('masterId').getAllKeys(master.id)`
in `updateDocument`. -/
def detailKeysFor (s : Store) (masterId : String) : List String :=
  (s.details.filter (fun d => d.masterId = masterId)).map (fun d => d.id)

/-- The write requests issued by `updateDocument`'s transaction when the
`masterId`-index key lookup succeeds: put the master, delete every existing
detail key of this master, then put the replacement details. -/
def updateTxnSteps (s : Store) (master : DocMaster) (details : List DocDetail) : List TxnStep :=
  [TxnStep.putM master] ++ (detailKeysFor s master.id).map TxnStep.delD
    ++ details.map TxnStep.putD

/-- `updateDocument` (`src/services/db.ts`), success path: overwrite the master
by `id`, delete all existing details whose `masterId` matches, insert the
replacement set — all in one transaction. -/
def updateDocument (s : Store) (master : DocMaster) (details : List DocDetail) : Store :=
  commitSteps s (updateTxnSteps s master details)

/-- `updateDocument` including the failure path of the detail-index lookup
(`request.onerror`): the handler throws, which aborts the enclosing IndexedDB
transaction — every buffered request (including the already-issued master `put`)
is rolled back — and the bubbled error event rejects the returned promise. -/
def updateDocumentRun (s : Store) (master : DocMaster) (details : List DocDetail)
    (lookupOk : Bool) : Except String Store :=
  if lookupOk then
    Except.ok (commitSteps s (updateTxnSteps s master details))
  else
    Except.error "Failed to fetch details for update"

/-- The store the caller observes after an operation: the committed store on
success, the untouched original store after an abort. -/
def storeAfter (s : Store) (r : Except String Store) : Store :=
  match r with
  | .ok s' => s'
  | .error _ => s

/-- Relation ordering masters newest-first (`createdAt` descending), the order
in which the `'prev'` cursor over the `createdAt` index visits records. -/
def newerFirst (a b : DocMaster) : Prop :=
  b.createdAt ≤ a.createdAt

instance : DecidableRel newerFirst := fun a b =>
  inferInstanceAs (Decidable (b.createdAt ≤ a.createdAt))

instance : IsTotal DocMaster newerFirst :=
  ⟨fun a b => Nat.le_total b.createdAt a.createdAt⟩

instance : IsTrans DocMaster newerFirst :=
  ⟨fun _ _ _ hab hbc => Nat.le_trans hbc hab⟩

/-- The sequence of records the backwards (`'prev'`) cursor over the `createdAt`
index yields: all masters, newest first.  (The relative order of records with
equal `createdAt` is not pinned down by any claim.) -/
def mastersNewestFirst (s : Store) : List DocMaster :=
  List.insertionSort newerFirst s.masters

/-- The collect phase of `getDocuments`'s cursor loop: push the record under the
cursor onto `docs`, stop as soon as `docs.length < limit` fails or the cursor is
exhausted. -/
def cursorCollect (limit : Nat) : List DocMaster → List DocMaster → List DocMaster
  | docs, [] => docs
  | docs, m :: rest =>
    if (docs ++ [m]).length < limit then cursorCollect limit (docs ++ [m]) rest
    else docs ++ [m]

/-- `getDocuments` (`src/services/db.ts`): count the master store, walk the
`createdAt` index backwards with a cursor; on the first visited record, if
`page > 1` and `(page - 1) * limit > 0`, call `cursor.advance((page - 1) * limit)`
(skipping that many records), then collect up to `limit` records. -/
def getDocuments (s : Store) (page limit : Nat) : List DocMaster × Nat :=
  (if 1 < page ∧ 0 < (page - 1) * limit then
      cursorCollect limit [] ((mastersNewestFirst s).drop ((page - 1) * limit))
    else
      cursorCollect limit [] (mastersNewestFirst s),
   s.masters.length)

/-- Ascending-`sequence` comparator `(a, b) => a.sequence - b.sequence` used by
`getDocumentDetails`. -/
def seqLe (a b : DocDetail) : Prop :=
  a.sequence ≤ b.sequence

instance : DecidableRel seqLe := fun a b =>
  inferInstanceAs (Decidable (a.sequence ≤ b.sequence))

instance : IsTotal DocDetail seqLe :=
  ⟨fun a b => Nat.le_total a.sequence b.sequence⟩

instance : IsTrans DocDetail seqLe :=
  ⟨fun _ _ _ hab hbc => Nat.le_trans hab hbc⟩

/-- `getDocumentDetails` (`src/services/db.ts`): `index('masterId').getAll(masterId)`
(retrieval order not relied upon), then sort by `sequence` ascending. -/
def getDocumentDetails (s : Store) (masterId : String) : List DocDetail :=
  List.insertionSort seqLe (s.details.filter (fun d => d.masterId = masterId))

/-- `getPendingDocuments` (`src/services/db.ts`): `index('syncStatus').getAll('pending')`. -/
def getPendingDocuments (s : Store) : List DocMaster :=
  s.masters.filter (fun m => m.syncStatus = SyncStatus.pending)

/-- `getFailedDocuments` (`src/services/db.ts`): `index('syncStatus').getAll('failed')`. -/
def getFailedDocuments (s : Store) : List DocMaster :=
  s.masters.filter (fun m => m.syncStatus = SyncStatus.failed)

/-- Common body of `markAsSynced`/`markAsFailed` (`src/services/db.ts`):
`get(masterId)`; if a record exists, overwrite its `syncStatus` and `put` it
back; if not (`if (data)` fails), do nothing — the transaction still completes
and the promise resolves. -/
def setStatus (s : Store) (masterId : String) (st : SyncStatus) : Store :=
  match s.masters.find? (fun m => m.id = masterId) with
  | none => s
  | some data => { s with masters := putMaster s.masters { data with syncStatus := st } }

/-- `markAsSynced` (`src/services/db.ts`). -/
def markAsSynced (s : Store) (masterId : String) : Store :=
  setStatus s masterId SyncStatus.synced

/-- `markAsFailed` (`src/services/db.ts`). -/
def markAsFailed (s : Store) (masterId : String) : Store :=
  setStatus s masterId SyncStatus.failed

/-- The `syncStatus` of the master stored under `id`, if any. -/
def statusOf (s : Store) (id : String) : Option SyncStatus :=
  (s.masters.find? (fun m => m.id = id)).map (fun m => m.syncStatus)

/-- Well-formedness maintained by the `keyPath: 'id'` object store: master ids
are pairwise distinct. -/
def wfMasters (s : Store) : Prop :=
  (s.masters.map (fun m => m.id)).Nodup

/-! ## Sync engine (`src/App.tsx`)

`processSyncBatch` walks the candidate list with a `for` loop carrying the
`successCount`/`failCount` accumulators.  The outcome of one record's upload
attempt (detail fetch, network round trip, `response.ok`) is abstracted by the
oracle `ok : String → Bool` applied to the record's `id`: `true` means the
`try` block reached `markAsSynced`, `false` means any thrown error landed in
the `catch` block, which calls `markAsFailed` and lets the loop continue. -/

/-- One iteration's status write: `markAsSynced` on success, `markAsFailed`
in the `catch` branch. -/
def applyOutcome (s : Store) (id : String) (succ : Bool) : Store :=
  if succ then markAsSynced s id else markAsFailed s id

/-- The `for` loop of `processSyncBatch`, carrying the store and the two
counters exactly as the source does. -/
def processSyncBatchAux (ok : String → Bool) :
    Store → Nat → Nat → List DocMaster → Store × Nat × Nat
  | s, su, fa, [] => (s, su, fa)
  | s, su, fa, doc :: rest =>
    if ok doc.id then
      processSyncBatchAux ok (markAsSynced s doc.id) (su + 1) fa rest
    else
      processSyncBatchAux ok (markAsFailed s doc.id) su (fa + 1) rest

/-- `processSyncBatch` (`src/App.tsx`): returns the store after the batch and
the reported `(successCount, failCount)` summary. -/
def processSyncBatch (s : Store) (docs : List DocMaster) (ok : String → Bool) :
    Store × Nat × Nat :=
  processSyncBatchAux ok s 0 0 docs

/-- Which candidate query a sync-engine run draws from: `handleSync` uses
`getPendingDocuments`, `handleRetryFailed` uses `getFailedDocuments`. -/
inductive RunKind
  | syncPending
  | retryFailed

/-- The candidate list fetched at the start of a run. -/
def candidatesFor (s : Store) : RunKind → List DocMaster
  | .syncPending => getPendingDocuments s
  | .retryFailed => getFailedDocuments s

/-- One full engine run (`handleSync` / `handleRetryFailed`): fetch the
candidates, process the batch.  (An empty candidate list short-circuits in the
source; processing an empty batch leaves the store unchanged either way.) -/
def runEngine (s : Store) (k : RunKind) (ok : String → Bool) : Store :=
  (processSyncBatch s (candidatesFor s k) ok).1

/-- Any finite sequence of sync / retry runs, each with its own per-record
outcome oracle. -/
def runEngineSeq (s : Store) (runs : List (RunKind × (String → Bool))) : Store :=
  runs.foldl (fun st r => runEngine st r.1 r.2) s

/-! ## Remote sync endpoint (`src/backend/server.js`)

`POST /api/v1/documents/sync` keys on the transmitted `transactionId`
(stored in the `FRONTEND_UUID` column): it first checks whether a remote row
with that uuid exists and, if so, answers `200 { status: 'success',
oracleRecordId: <existing id> }` without inserting; otherwise it inserts the
master row (the generated numeric primary key is modelled by a counter),
inserts the image rows, commits, and answers success with the new id.  The
row payload columns beyond the idempotency key do not influence any claim and
are not modelled. -/

/-- Remote database state: committed master rows as `(FRONTEND_UUID, ID)`
pairs in insertion order, plus the next value of the generated primary key. -/
structure RemoteState where
  records : List (String × Nat)
  nextId : Nat
deriving DecidableEq

/-- The endpoint handler: `400` on a falsy `transactionId` (modelled by the
empty string), the idempotency check, or the fresh insert-and-commit. -/
def syncEndpoint (rs : RemoteState) (tid : String) : RemoteState × Except String Nat :=
  if tid = "" then
    (rs, Except.error "Invalid payload structure")
  else
    match rs.records.find? (fun p => p.1 = tid) with
    | some p => (rs, Except.ok p.2)
    | none =>
      ({ records := rs.records ++ [(tid, rs.nextId)], nextId := rs.nextId + 1 },
       Except.ok rs.nextId)

/-- One record's sync round trip, client and server together.  `reaches` is
whether the request reaches the server at all (otherwise `fetch` rejects and
the server state is untouched); `delivered` is whether a success response makes
it back to the client (an ambiguous failure is `reaches = true`,
`delivered = false`: the server committed but the client's `fetch` threw).  A
non-2xx response (`response.ok` false) throws as well.  The `catch` branch
calls `markAsFailed`; a delivered success calls `markAsSynced` — a duplicate
"already exists" success is indistinguishable from a fresh one. -/
def syncOne (s : Store) (rs : RemoteState) (doc : DocMaster)
    (reaches delivered : Bool) : Store × RemoteState :=
  if reaches then
    match syncEndpoint rs doc.id with
    | (rs2, .ok _) =>
      if delivered then (markAsSynced s doc.id, rs2) else (markAsFailed s doc.id, rs2)
    | (rs2, .error _) => (markAsFailed s doc.id, rs2)
  else
    (markAsFailed s doc.id, rs)

/-! ## `clearDatabase` (`src/services/db.ts`) -/

/-- The event `indexedDB.deleteDatabase` fires on the caller's request object:
success, error, or blocked (another connection is still open). -/
inductive DeleteDbEvent
  | success
  | failure (msg : String)
  | blocked
deriving DecidableEq

/-- What the promise returned by `clearDatabase` has done after the event. -/
inductive PromiseState
  | resolved
  | rejected (msg : String)
  | pending
deriving DecidableEq

/-- `clearDatabase` (`src/services/db.ts`): `onsuccess` resolves, `onerror`
rejects, but `onblocked` only emits `console.warn` — it neither resolves nor
rejects, so on a blocked deletion the caller's promise is still pending. -/
def clearDatabase : DeleteDbEvent → PromiseState
  | .success => PromiseState.resolved
  | .failure e => PromiseState.rejected e
  | .blocked => PromiseState.pending

/-! ## Helper lemmas -/

theorem find?_filter_subset {α : Type} (p q : α → Bool) (l : List α)
    (h : ∀ x, p x = true → q x = true) :
    (l.filter q).find? p = l.find? p := by
  induction l with
  | nil => rfl
  | cons a l ih =>
    by_cases hq : q a = true
    · rw [List.filter_cons_of_pos hq]
      by_cases hp : p a = true
      · rw [List.find?_cons_of_pos _ hp, List.find?_cons_of_pos _ hp]
      · rw [List.find?_cons_of_neg _ hp, List.find?_cons_of_neg _ hp, ih]
    · rw [List.filter_cons_of_neg (by simpa using hq), ih,
        List.find?_cons_of_neg _ (fun hpa => hq (h a hpa))]

theorem statusOf_setStatus_ne (s : Store) (mid : String) (st : SyncStatus)
    (id : String) (h : id ≠ mid) :
    statusOf (setStatus s mid st) id = statusOf s id := by
  unfold setStatus
  cases hf : s.masters.find? (fun m => m.id = mid) with
  | none => rfl
  | some data =>
    have hdid : data.id = mid := by simpa using List.find?_some hf
    unfold statusOf putMaster
    rw [List.find?_append]
    have h1 : (s.masters.filter
        (fun x => decide (x.id ≠ ({data with syncStatus := st} : DocMaster).id))).find?
          (fun m => m.id = id) = s.masters.find? (fun m => m.id = id) := by
      apply find?_filter_subset
      intro x hx
      have hxid : x.id = id := by simpa using hx
      simp [hxid, hdid, h]
    have h2 : List.find? (fun m => m.id = id) [{data with syncStatus := st}] = none := by
      simp [hdid]
      exact fun hh => h hh.symm
    rw [h1, h2]
    simp

theorem statusOf_setStatus_self (s : Store) (mid : String) (st : SyncStatus)
    (h : (statusOf s mid).isSome) :
    statusOf (setStatus s mid st) mid = some st := by
  unfold statusOf at h
  cases hf : s.masters.find? (fun m => m.id = mid) with
  | none => rw [hf] at h; simp at h
  | some data =>
    have hdid : data.id = mid := by simpa using List.find?_some hf
    unfold setStatus
    rw [hf]
    unfold statusOf putMaster
    rw [List.find?_append]
    have h1 : (s.masters.filter
        (fun x => decide (x.id ≠ ({data with syncStatus := st} : DocMaster).id))).find?
          (fun m => m.id = mid) = none := by
      rw [List.find?_eq_none]
      intro x hx
      have hne : x.id ≠ data.id := by simpa using (List.mem_filter.mp hx).2
      simp [hdid ▸ hne]
    rw [h1]
    simp [hdid]

theorem statusOf_isSome_setStatus (s : Store) (mid : String) (st : SyncStatus)
    (id : String) :
    (statusOf (setStatus s mid st) id).isSome = (statusOf s id).isSome := by
  by_cases h : id = mid
  · subst h
    by_cases hs : (statusOf s id).isSome
    · rw [statusOf_setStatus_self s id st hs, hs]
      rfl
    · have : statusOf s id = none := by
        cases hv : statusOf s id
        · rfl
        · rw [hv] at hs; simp at hs
      unfold statusOf at this
      unfold setStatus
      cases hf : s.masters.find? (fun m => m.id = id) with
      | none => rfl
      | some data => rw [hf] at this; simp at this
  · rw [statusOf_setStatus_ne s mid st id h]

theorem details_setStatus (s : Store) (mid : String) (st : SyncStatus) :
    (setStatus s mid st).details = s.details := by
  unfold setStatus
  cases s.masters.find? (fun m => m.id = mid) <;> rfl

theorem wfMasters_setStatus (s : Store) (mid : String) (st : SyncStatus)
    (h : wfMasters s) : wfMasters (setStatus s mid st) := by
  unfold setStatus
  cases hf : s.masters.find? (fun m => m.id = mid) with
  | none => exact h
  | some data =>
    unfold wfMasters at h ⊢
    unfold putMaster
    rw [List.map_append, List.nodup_append]
    refine ⟨?_, by simp, ?_⟩
    · exact h.sublist ((List.filter_sublist _).map _)
    · intro a ha hb
      simp only [List.mem_map, List.mem_filter] at ha
      obtain ⟨x, ⟨_, hxne⟩, hxa⟩ := ha
      have hb' : a = data.id := by simpa using hb
      subst hxa
      have hxne' : x.id ≠ data.id := by simpa using hxne
      exact hxne' hb'

theorem processSyncBatchAux_counts (ok : String → Bool) (docs : List DocMaster) :
    ∀ (s : Store) (su fa : Nat),
      (processSyncBatchAux ok s su fa docs).2.1
          = su + (docs.filter (fun d => ok d.id)).length ∧
      (processSyncBatchAux ok s su fa docs).2.2
          = fa + (docs.filter (fun d => !ok d.id)).length := by
  induction docs with
  | nil => intro s su fa; simp [processSyncBatchAux]
  | cons doc rest ih =>
    intro s su fa
    by_cases hok : ok doc.id = true
    · have h2 := ih (markAsSynced s doc.id) (su + 1) fa
      simp [processSyncBatchAux, hok, List.filter_cons]
      constructor
      · rw [h2.1]; omega
      · rw [h2.2]
    · have hok' : ok doc.id = false := by simpa using hok
      have h2 := ih (markAsFailed s doc.id) su (fa + 1)
      simp [processSyncBatchAux, hok', List.filter_cons]
      constructor
      · rw [h2.1]
      · rw [h2.2]; omega

theorem statusOf_processSyncBatchAux_notMem (ok : String → Bool) (docs : List DocMaster) :
    ∀ (s : Store) (su fa : Nat) (id : String),
      id ∉ docs.map (fun d => d.id) →
      statusOf (processSyncBatchAux ok s su fa docs).1 id = statusOf s id := by
  induction docs with
  | nil => intro s su fa id _; rfl
  | cons doc rest ih =>
    intro s su fa id hid
    have hne : id ≠ doc.id := by
      intro h; exact hid (by simp [h])
    have hrest : id ∉ rest.map (fun d => d.id) := by
      intro h; exact hid (by simp [h])
    by_cases hok : ok doc.id = true
    · simp only [processSyncBatchAux, hok, if_true]
      rw [ih _ _ _ _ hrest]
      exact statusOf_setStatus_ne s doc.id SyncStatus.synced id hne
    · have hok' : ok doc.id = false := by simpa using hok
      simp only [processSyncBatchAux, hok', Bool.false_eq_true, if_false]
      rw [ih _ _ _ _ hrest]
      exact statusOf_setStatus_ne s doc.id SyncStatus.failed id hne

theorem statusOf_processSyncBatchAux_mem (ok : String → Bool) (docs : List DocMaster) :
    ∀ (s : Store) (su fa : Nat),
      (docs.map (fun d => d.id)).Nodup →
      (∀ d ∈ docs, (statusOf s d.id).isSome) →
      ∀ d ∈ docs,
        statusOf (processSyncBatchAux ok s su fa docs).1 d.id
          = some (if ok d.id then SyncStatus.synced else SyncStatus.failed) := by
  induction docs with
  | nil => intro s su fa _ _ d hd; exact absurd hd (List.not_mem_nil d)
  | cons doc rest ih =>
    intro s su fa hnd hsome d hd
    have hnd' : (rest.map (fun x => x.id)).Nodup := (List.nodup_cons.mp hnd).2
    have hdocnotin : doc.id ∉ rest.map (fun x => x.id) := (List.nodup_cons.mp hnd).1
    have hs1 : ∀ st : SyncStatus, ∀ x ∈ rest, (statusOf (setStatus s doc.id st) x.id).isSome := by
      intro st x hx
      rw [statusOf_isSome_setStatus]
      exact hsome x (List.mem_cons_of_mem doc hx)
    rcases List.mem_cons.mp hd with hdeq | hdrest
    · subst hdeq
      by_cases hok : ok d.id = true
      · simp only [processSyncBatchAux, hok, if_true]
        rw [statusOf_processSyncBatchAux_notMem ok rest _ _ _ _ hdocnotin]
        exact statusOf_setStatus_self s d.id SyncStatus.synced (hsome d (List.mem_cons_self d rest))
      · have hok' : ok d.id = false := by simpa using hok
        simp only [processSyncBatchAux, hok', Bool.false_eq_true, if_false]
        rw [statusOf_processSyncBatchAux_notMem ok rest _ _ _ _ hdocnotin]
        exact statusOf_setStatus_self s d.id SyncStatus.failed (hsome d (List.mem_cons_self d rest))
    · by_cases hok : ok doc.id = true
      · simp only [processSyncBatchAux, hok, if_true]
        exact ih _ _ _ hnd' (hs1 SyncStatus.synced) d hdrest
      · have hok' : ok doc.id = false := by simpa using hok
        simp only [processSyncBatchAux, hok', Bool.false_eq_true, if_false]
        exact ih _ _ _ hnd' (hs1 SyncStatus.failed) d hdrest

theorem length_filter_add_length_filter_not {α : Type} (p : α → Bool) (l : List α) :
    (l.filter p).length + (l.filter (fun a => !p a)).length = l.length := by
  induction l with
  | nil => rfl
  | cons a l ih =>
    by_cases h : p a = true <;> simp [List.filter_cons, h] <;> omega

theorem commitSteps_append (s : Store) (a b : List TxnStep) :
    commitSteps s (a ++ b) = commitSteps (commitSteps s a) b :=
  List.foldl_append applyStep s a b

theorem commitSteps_delDs (keys : List String) : ∀ s : Store,
    commitSteps s (keys.map TxnStep.delD)
      = { s with details := keys.foldl deleteDetail s.details } := by
  induction keys with
  | nil => intro s; rfl
  | cons k ks ih => intro s; exact ih { s with details := deleteDetail s.details k }

theorem commitSteps_putDs (ds : List DocDetail) : ∀ s : Store,
    commitSteps s (ds.map TxnStep.putD)
      = { s with details := ds.foldl putDetail s.details } := by
  induction ds with
  | nil => intro s; rfl
  | cons d ds ih => intro s; exact ih { s with details := putDetail s.details d }

theorem updateDocument_eq (s : Store) (m : DocMaster) (D : List DocDetail) :
    updateDocument s m D =
      { masters := putMaster s.masters m,
        details := D.foldl putDetail
          ((detailKeysFor s m.id).foldl deleteDetail s.details) } := by
  unfold updateDocument updateTxnSteps
  rw [commitSteps_append, commitSteps_append, commitSteps_delDs, commitSteps_putDs]
  rfl

theorem saveDocument_eq (s : Store) (m : DocMaster) (D : List DocDetail) :
    saveDocument s m D =
      { masters := putMaster s.masters m, details := D.foldl putDetail s.details } := by
  unfold saveDocument
  rw [commitSteps_append, commitSteps_putDs]
  rfl

theorem mem_foldl_deleteDetail (keys : List String) : ∀ (l : List DocDetail) (d : DocDetail),
    d ∈ keys.foldl deleteDetail l ↔ d ∈ l ∧ d.id ∉ keys := by
  induction keys with
  | nil => intro l d; simp
  | cons k ks ih =>
    intro l d
    rw [List.foldl_cons, ih]
    unfold deleteDetail
    rw [List.mem_filter]
    constructor
    · rintro ⟨⟨hmem, hne⟩, hnin⟩
      refine ⟨hmem, ?_⟩
      intro hk
      rcases List.mem_cons.mp hk with h | h
      · have hne' : d.id ≠ k := by simpa using hne
        exact hne' h
      · exact hnin h
    · rintro ⟨hmem, hnin⟩
      refine ⟨⟨hmem, ?_⟩, fun h => hnin (List.mem_cons_of_mem k h)⟩
      simp only [decide_eq_true_eq]
      exact fun h => hnin (h ▸ List.mem_cons_self k ks)

theorem foldl_putDetail_eq (ds : List DocDetail) : ∀ l : List DocDetail,
    (ds.map (fun d => d.id)).Nodup →
    ds.foldl putDetail l
      = l.filter (fun x => decide (x.id ∉ ds.map (fun d => d.id))) ++ ds := by
  induction ds with
  | nil =>
    intro l _
    simp
  | cons d ds ih =>
    intro l hnd
    rw [List.map_cons, List.nodup_cons] at hnd
    rw [List.foldl_cons, ih _ hnd.2]
    unfold putDetail
    rw [List.filter_append]
    have hd : List.filter (fun x => decide (x.id ∉ ds.map (fun d => d.id))) [d] = [d] := by
      simp only [List.filter_cons, List.filter_nil]
      rw [if_pos (decide_eq_true hnd.1)]
    rw [hd, List.filter_filter, List.append_assoc]
    congr 1
    apply List.filter_congr
    intro x _
    by_cases h1 : x.id = d.id <;> by_cases h2 : x.id ∈ ds.map (fun d => d.id) <;>
      simp [h1, h2]

theorem find?_putMaster (l : List DocMaster) (m : DocMaster) :
    (putMaster l m).find? (fun x => x.id = m.id) = some m := by
  unfold putMaster
  rw [List.find?_append]
  have h1 : (l.filter (fun x => x.id ≠ m.id)).find? (fun x => x.id = m.id) = none := by
    rw [List.find?_eq_none]
    intro x hx
    have := (List.mem_filter.mp hx).2
    simpa using this
  rw [h1]
  simp

theorem filter_putMaster_ne (l : List DocMaster) (m : DocMaster) :
    (putMaster l m).filter (fun x => x.id ≠ m.id) = l.filter (fun x => x.id ≠ m.id) := by
  unfold putMaster
  rw [List.filter_append, List.filter_filter]
  have h2 : List.filter (fun x => x.id ≠ m.id) [m] = [] := by simp
  rw [h2, List.append_nil]
  apply List.filter_congr
  intro x _
  by_cases h : x.id = m.id <;> simp [h]

/-- Strict version of the `sequence` order, used to show that sorting is
deterministic when sequences are pairwise distinct. -/
def seqLt (a b : DocDetail) : Prop :=
  a.sequence < b.sequence

instance : IsAntisymm DocDetail seqLt :=
  ⟨fun a b h1 h2 => absurd h2 (Nat.lt_asymm h1)⟩

theorem sorted_seqLt_of_sorted_seqLe (l : List DocDetail)
    (hs : List.Sorted seqLe l)
    (hnd : (l.map (fun d => d.sequence)).Nodup) :
    List.Sorted seqLt l := by
  have hne : List.Pairwise (fun a b : DocDetail => a.sequence ≠ b.sequence) l := by
    rw [List.Nodup, List.pairwise_map] at hnd
    exact hnd
  exact (hs.and hne).imp (fun h => Nat.lt_of_le_of_ne h.1 h.2)

theorem sortDetails_eq_of_perm (l1 l2 : List DocDetail)
    (hp : l1.Perm l2)
    (hnd : (l1.map (fun d => d.sequence)).Nodup) :
    List.insertionSort seqLe l1 = List.insertionSort seqLe l2 := by
  have hperm : (List.insertionSort seqLe l1).Perm (List.insertionSort seqLe l2) :=
    (List.perm_insertionSort seqLe l1).trans
      (hp.trans (List.perm_insertionSort seqLe l2).symm)
  have hnd1 : ((List.insertionSort seqLe l1).map (fun d => d.sequence)).Nodup :=
    (((List.perm_insertionSort seqLe l1).map (fun d => d.sequence)).nodup_iff).mpr hnd
  have hnd2 : ((List.insertionSort seqLe l2).map (fun d => d.sequence)).Nodup :=
    ((hperm.map (fun d => d.sequence)).nodup_iff).mp hnd1
  exact List.eq_of_perm_of_sorted (r := seqLt) hperm
    (sorted_seqLt_of_sorted_seqLe _ (List.sorted_insertionSort seqLe l1) hnd1)
    (sorted_seqLt_of_sorted_seqLe _ (List.sorted_insertionSort seqLe l2) hnd2)

theorem cursorCollect_eq_take (limit : Nat) (l : List DocMaster) :
    ∀ docs : List DocMaster, docs.length < limit →
      cursorCollect limit docs l = docs ++ l.take (limit - docs.length) := by
  induction l with
  | nil =>
    intro docs _
    simp [cursorCollect]
  | cons m rest ih =>
    intro docs h
    unfold cursorCollect
    by_cases h2 : (docs ++ [m]).length < limit
    · rw [if_pos h2, ih _ h2]
      have hlen : (docs ++ [m]).length = docs.length + 1 := by simp
      have harith : limit - docs.length = (limit - (docs.length + 1)) + 1 := by omega
      rw [List.append_assoc, hlen, harith, List.take_succ_cons]
      rfl
    · rw [if_neg h2]
      have hlen : (docs ++ [m]).length = docs.length + 1 := by simp
      have harith : limit - docs.length = 1 := by omega
      rw [harith, List.take_succ_cons, List.take_zero]

theorem wfMasters_processSyncBatchAux (ok : String → Bool) (docs : List DocMaster) :
    ∀ (s : Store) (su fa : Nat), wfMasters s →
      wfMasters (processSyncBatchAux ok s su fa docs).1 := by
  induction docs with
  | nil => intro s su fa h; exact h
  | cons doc rest ih =>
    intro s su fa h
    by_cases hok : ok doc.id = true
    · simp only [processSyncBatchAux, hok, if_true]
      exact ih _ _ _ (wfMasters_setStatus s doc.id SyncStatus.synced h)
    · have hok' : ok doc.id = false := by simpa using hok
      simp only [processSyncBatchAux, hok', Bool.false_eq_true, if_false]
      exact ih _ _ _ (wfMasters_setStatus s doc.id SyncStatus.failed h)

/-! ## Concrete records used by the witnesses -/

/-- A concrete `DocMaster` with the given id, creation time and status. -/
def mkMaster (id : String) (t : Nat) (st : SyncStatus) : DocMaster :=
  { id := id, name := "n", gender := "Male", dob := "2000-01-01", age := "25y",
    phone := "01711", address := "addr", refId := some 1, createdAt := t,
    syncStatus := st }

/-- A concrete `DocDetail` with the given id, parent and sequence. -/
def mkDetail (id mid : String) (seq : Nat) : DocDetail :=
  { id := id, masterId := mid, sequence := seq, imageData := "data:image/png;base64,AAAA",
    mimeType := "image/png" }

/-- Store with three masters created at strictly increasing times. -/
def exPageStore : Store :=
  { masters := [mkMaster "a" 1 SyncStatus.pending, mkMaster "b" 2 SyncStatus.pending,
      mkMaster "c" 3 SyncStatus.pending],
    details := [] }

/-- Details of one master inserted with sequence values `[3, 1, 2]`. -/
def exDetStore1 : Store :=
  { masters := [],
    details := [mkDetail "d1" "m" 3, mkDetail "d2" "m" 1, mkDetail "d3" "m" 2] }

/-- The same stored details retrieved in a different underlying order. -/
def exDetStore2 : Store :=
  { masters := [],
    details := [mkDetail "d2" "m" 1, mkDetail "d3" "m" 2, mkDetail "d1" "m" 3] }

/-! ## Claim theorems -/

/-- C3: for every store and every `pageNumber ≥ 1`, `pageSize ≥ 1`,
`getDocuments` returns the window obtained by ordering all masters by
`createdAt` descending, skipping `(page-1)*limit` records and taking `limit`,
together with `total` equal to the number of stored masters on every call;
a page past the end returns the empty window. -/
theorem getDocuments_paginates (s : Store) (page limit : Nat)
    (hp : 1 ≤ page) (hk : 1 ≤ limit) :
    ∃ ordered : List DocMaster,
      ordered.Perm s.masters ∧
      List.Sorted newerFirst ordered ∧
      (getDocuments s page limit).1 = (ordered.drop ((page - 1) * limit)).take limit ∧
      (getDocuments s page limit).2 = s.masters.length ∧
      (s.masters.length ≤ (page - 1) * limit → (getDocuments s page limit).1 = []) := by
  have hmain : (getDocuments s page limit).1
      = ((mastersNewestFirst s).drop ((page - 1) * limit)).take limit := by
    by_cases hc : 1 < page ∧ 0 < (page - 1) * limit
    · have h1 : (getDocuments s page limit).1
          = cursorCollect limit [] ((mastersNewestFirst s).drop ((page - 1) * limit)) := by
        unfold getDocuments
        rw [if_pos hc]
      rw [h1, cursorCollect_eq_take limit _ [] (by simpa using hk)]
      simp
    · have hpage : page = 1 := by
        rcases Nat.lt_or_ge 1 page with h | h
        · exact absurd ⟨h, Nat.mul_pos (by omega) (by omega)⟩ hc
        · omega
      have h1 : (getDocuments s page limit).1
          = cursorCollect limit [] (mastersNewestFirst s) := by
        unfold getDocuments
        rw [if_neg hc]
      rw [h1, cursorCollect_eq_take limit _ [] (by simpa using hk), hpage]
      simp
  refine ⟨mastersNewestFirst s, List.perm_insertionSort _ _,
    List.sorted_insertionSort _ _, hmain, rfl, ?_⟩
  intro hle
  rw [hmain]
  have hlen : (mastersNewestFirst s).length = s.masters.length :=
    (List.perm_insertionSort _ _).length_eq
  rw [List.drop_eq_nil_of_le (by rw [hlen]; exact hle), List.take_nil]

/-- Witness for C3 at a concrete store: 3 masters with increasing `createdAt`,
page 2 of size 2. -/
theorem getDocuments_paginates_witness :
    1 ≤ 2 ∧
    (∃ ordered : List DocMaster,
      ordered.Perm exPageStore.masters ∧
      List.Sorted newerFirst ordered ∧
      (getDocuments exPageStore 2 2).1 = (ordered.drop ((2 - 1) * 2)).take 2 ∧
      (getDocuments exPageStore 2 2).2 = exPageStore.masters.length ∧
      (exPageStore.masters.length ≤ (2 - 1) * 2 → (getDocuments exPageStore 2 2).1 = [])) :=
  ⟨by decide, getDocuments_paginates exPageStore 2 2 (by decide) (by decide)⟩

/-- C6: `getDocumentDetails` returns all details of the given master sorted
ascending by `sequence`, independent of the underlying storage retrieval order:
any permutation of the stored detail list produces the identical output. -/
theorem getDocumentDetails_sorted_order_independent (s1 s2 : Store) (mid : String)
    (hperm : s1.details.Perm s2.details)
    (hnd : ((s1.details.filter (fun d => d.masterId = mid)).map
      (fun d => d.sequence)).Nodup) :
    getDocumentDetails s1 mid = getDocumentDetails s2 mid ∧
    List.Sorted seqLe (getDocumentDetails s1 mid) ∧
    (getDocumentDetails s1 mid).Perm (s1.details.filter (fun d => d.masterId = mid)) :=
  ⟨sortDetails_eq_of_perm _ _ (hperm.filter _) hnd,
   List.sorted_insertionSort _ _, List.perm_insertionSort _ _⟩

/-- Witness for C6: details inserted with sequences `[3,1,2]`, retrieved in two
different underlying orders. -/
theorem getDocumentDetails_sorted_order_independent_witness :
    exDetStore1.details.Perm exDetStore2.details ∧
    (getDocumentDetails exDetStore1 "m" = getDocumentDetails exDetStore2 "m" ∧
     List.Sorted seqLe (getDocumentDetails exDetStore1 "m") ∧
     (getDocumentDetails exDetStore1 "m").Perm
       (exDetStore1.details.filter (fun d => d.masterId = "m"))) :=
  ⟨by decide,
   getDocumentDetails_sorted_order_independent exDetStore1 exDetStore2 "m"
     (by decide) (by decide)⟩

/-- Candidates of one batch and why a synced record never is one. -/
theorem not_candidate_of_synced (s : Store) (id : String)
    (hwf : wfMasters s) (hs : statusOf s id = some SyncStatus.synced) :
    ∀ k : RunKind, ∀ m ∈ candidatesFor s k, m.id ≠ id := by
  intro k m hm heq
  obtain ⟨data, hfind, hdata⟩ : ∃ data, s.masters.find? (fun x => x.id = id) = some data
      ∧ data.syncStatus = SyncStatus.synced := by
    unfold statusOf at hs
    cases hf : s.masters.find? (fun x => x.id = id) with
    | none => rw [hf] at hs; simp at hs
    | some d => rw [hf] at hs; exact ⟨d, rfl, by simpa using hs⟩
  have hdid : data.id = id := by simpa using List.find?_some hfind
  have hdmem : data ∈ s.masters := List.mem_of_find?_eq_some hfind
  have hmmem : m ∈ s.masters := by
    cases k
    · exact (List.mem_filter.mp hm).1
    · exact (List.mem_filter.mp hm).1
  have hmeq : m = data :=
    List.inj_on_of_nodup_map hwf hmmem hdmem (by rw [heq, hdid])
  cases k with
  | syncPending =>
    have hp : m.syncStatus = SyncStatus.pending := by
      simpa using (List.mem_filter.mp hm).2
    rw [hmeq, hdata] at hp
    exact SyncStatus.noConfusion hp
  | retryFailed =>
    have hp : m.syncStatus = SyncStatus.failed := by
      simpa using (List.mem_filter.mp hm).2
    rw [hmeq, hdata] at hp
    exact SyncStatus.noConfusion hp

theorem runEngine_preserves_synced (s : Store) (id : String)
    (hwf : wfMasters s) (hs : statusOf s id = some SyncStatus.synced)
    (k : RunKind) (ok : String → Bool) :
    statusOf (runEngine s k ok) id = some SyncStatus.synced ∧
    wfMasters (runEngine s k ok) := by
  constructor
  · have hnotin : id ∉ (candidatesFor s k).map (fun d => d.id) := by
      intro hmem
      obtain ⟨m, hm, hmid⟩ := List.mem_map.mp hmem
      exact not_candidate_of_synced s id hwf hs k m hm hmid
    have h := statusOf_processSyncBatchAux_notMem ok (candidatesFor s k) s 0 0 id hnotin
    unfold runEngine processSyncBatch
    rw [h]
    exact hs
  · exact wfMasters_processSyncBatchAux ok _ s 0 0 hwf

/-- C5: a record whose `syncStatus` is `synced` is terminal: it is absent from
both candidate queries, and no finite sequence of sync / retry engine runs — the
only code paths that write statuses — ever selects it or changes its status. -/
theorem synced_is_terminal (s : Store) (id : String)
    (hwf : wfMasters s) (hs : statusOf s id = some SyncStatus.synced)
    (runs : List (RunKind × (String → Bool))) :
    statusOf (runEngineSeq s runs) id = some SyncStatus.synced ∧
    (∀ m ∈ getPendingDocuments (runEngineSeq s runs), m.id ≠ id) ∧
    (∀ m ∈ getFailedDocuments (runEngineSeq s runs), m.id ≠ id) := by
  have main : ∀ (rl : List (RunKind × (String → Bool))) (st : Store),
      wfMasters st → statusOf st id = some SyncStatus.synced →
      statusOf (runEngineSeq st rl) id = some SyncStatus.synced ∧
        wfMasters (runEngineSeq st rl) := by
    intro rl
    induction rl with
    | nil => intro st h1 h2; exact ⟨h2, h1⟩
    | cons r rs ih =>
      intro st h1 h2
      have hr := runEngine_preserves_synced st id h1 h2 r.1 r.2
      exact ih (runEngine st r.1 r.2) hr.2 hr.1
  obtain ⟨h1, h2⟩ := main runs s hwf hs
  exact ⟨h1,
    fun m hm => not_candidate_of_synced _ id h2 h1 RunKind.syncPending m hm,
    fun m hm => not_candidate_of_synced _ id h2 h1 RunKind.retryFailed m hm⟩

/-- Store holding one already-synced record and one pending record. -/
def exSyncedStore : Store :=
  { masters := [mkMaster "s1" 1 SyncStatus.synced, mkMaster "p1" 2 SyncStatus.pending],
    details := [] }

/-- Two concrete engine runs: a sync where everything succeeds, then a retry
where everything fails. -/
def exRuns : List (RunKind × (String → Bool)) :=
  [(RunKind.syncPending, fun _ => true), (RunKind.retryFailed, fun _ => false)]

/-- Witness for C5 at a concrete store and a concrete two-run sequence. -/
theorem synced_is_terminal_witness :
    wfMasters exSyncedStore ∧
    statusOf exSyncedStore "s1" = some SyncStatus.synced ∧
    (statusOf (runEngineSeq exSyncedStore exRuns) "s1" = some SyncStatus.synced ∧
     (∀ m ∈ getPendingDocuments (runEngineSeq exSyncedStore exRuns), m.id ≠ "s1") ∧
     (∀ m ∈ getFailedDocuments (runEngineSeq exSyncedStore exRuns), m.id ≠ "s1")) :=
  ⟨by unfold wfMasters; decide, by decide,
   synced_is_terminal exSyncedStore "s1" (by unfold wfMasters; decide) (by decide) exRuns⟩

/-- C1: `processSyncBatch` walks the candidate list sequentially (the loop is
the structural recursion of `processSyncBatchAux`); a failing record is marked
`failed` while the loop continues, so every record still gets its own outcome
status; and the reported summary satisfies `success` = number of succeeding
records, `failed` = number of failing records, `success + failed` = batch
size. -/
theorem processSyncBatch_isolated_counts (s : Store) (docs : List DocMaster)
    (ok : String → Bool)
    (hnd : (docs.map (fun d => d.id)).Nodup)
    (hsome : ∀ d ∈ docs, (statusOf s d.id).isSome) :
    (processSyncBatch s docs ok).2.1 = (docs.filter (fun d => ok d.id)).length ∧
    (processSyncBatch s docs ok).2.2 = (docs.filter (fun d => !ok d.id)).length ∧
    (processSyncBatch s docs ok).2.1 + (processSyncBatch s docs ok).2.2 = docs.length ∧
    (∀ d ∈ docs, statusOf (processSyncBatch s docs ok).1 d.id
      = some (if ok d.id then SyncStatus.synced else SyncStatus.failed)) := by
  have hc := processSyncBatchAux_counts ok docs s 0 0
  have h1 : (processSyncBatch s docs ok).2.1
      = (docs.filter (fun d => ok d.id)).length := by
    unfold processSyncBatch
    rw [hc.1]
    omega
  have h2 : (processSyncBatch s docs ok).2.2
      = (docs.filter (fun d => !ok d.id)).length := by
    unfold processSyncBatch
    rw [hc.2]
    omega
  refine ⟨h1, h2, ?_, ?_⟩
  · rw [h1, h2]
    exact length_filter_add_length_filter_not _ docs
  · exact statusOf_processSyncBatchAux_mem ok docs s 0 0 hnd hsome

/-- The P6 batch: three pending records. -/
def exBatchDocs : List DocMaster :=
  [mkMaster "r1" 1 SyncStatus.pending, mkMaster "r2" 2 SyncStatus.pending,
   mkMaster "r3" 3 SyncStatus.pending]

/-- Store containing the P6 batch. -/
def exBatchStore : Store :=
  { masters := exBatchDocs, details := [] }

/-- Outcome oracle for P6: the upload fails for the second record only. -/
def exBatchOk : String → Bool :=
  fun id => id ≠ "r2"

/-- Witness for C1: the P6 scenario — 3 pending records, the 2nd upload fails;
summary is `success = 2`, `failed = 1`, and each record has its own status. -/
theorem processSyncBatch_isolated_counts_witness :
    (exBatchDocs.map (fun d => d.id)).Nodup ∧
    ((processSyncBatch exBatchStore exBatchDocs exBatchOk).2.1
        = (exBatchDocs.filter (fun d => exBatchOk d.id)).length ∧
     (processSyncBatch exBatchStore exBatchDocs exBatchOk).2.2
        = (exBatchDocs.filter (fun d => !exBatchOk d.id)).length ∧
     (processSyncBatch exBatchStore exBatchDocs exBatchOk).2.1
        + (processSyncBatch exBatchStore exBatchDocs exBatchOk).2.2
        = exBatchDocs.length ∧
     (∀ d ∈ exBatchDocs,
        statusOf (processSyncBatch exBatchStore exBatchDocs exBatchOk).1 d.id
          = some (if exBatchOk d.id then SyncStatus.synced else SyncStatus.failed))) :=
  ⟨by decide,
   processSyncBatch_isolated_counts exBatchStore exBatchDocs exBatchOk
     (by decide) (by decide)⟩

/-- C7: when the detail-index lookup inside `updateDocument`'s transaction
fails, the whole transaction aborts and the operation reports the failure: the
caller sees a rejected result and the store is left exactly as it was — no
buffered write (master put, detail delete or insert) is applied. -/
theorem updateDocumentRun_lookup_failure_aborts (s : Store) (m : DocMaster)
    (D : List DocDetail) :
    updateDocumentRun s m D false = Except.error "Failed to fetch details for update" ∧
    storeAfter s (updateDocumentRun s m D false) = s :=
  ⟨rfl, rfl⟩

/-- C2: after `updateDocument(m, D)` succeeds, `getDocumentDetails(m.id)`
returns exactly the replacement set `D` sorted by `sequence`; no previously
stored detail of that master remains observable; the master is overwritten by
`id` while all other masters are untouched. -/
theorem updateDocument_replaces (s : Store) (m : DocMaster) (D : List DocDetail)
    (hmid : ∀ d ∈ D, d.masterId = m.id)
    (hids : (D.map (fun d => d.id)).Nodup) :
    (getDocumentDetails (updateDocument s m D) m.id).Perm D ∧
    List.Sorted seqLe (getDocumentDetails (updateDocument s m D) m.id) ∧
    (∀ d ∈ s.details, d.masterId = m.id → d ∉ D → d ∉ (updateDocument s m D).details) ∧
    (updateDocument s m D).masters.find? (fun x => x.id = m.id) = some m ∧
    (updateDocument s m D).masters.filter (fun x => x.id ≠ m.id)
      = s.masters.filter (fun x => x.id ≠ m.id) := by
  have hdet : (updateDocument s m D).details
      = D.foldl putDetail ((detailKeysFor s m.id).foldl deleteDetail s.details) := by
    rw [updateDocument_eq]
  have hmas : (updateDocument s m D).masters = putMaster s.masters m := by
    rw [updateDocument_eq]
  have hAfterNot : ∀ d ∈ (detailKeysFor s m.id).foldl deleteDetail s.details,
      d.masterId ≠ m.id := by
    intro d hd heq
    have h := (mem_foldl_deleteDetail _ _ d).mp hd
    apply h.2
    unfold detailKeysFor
    exact List.mem_map_of_mem _ (List.mem_filter.mpr ⟨h.1, by simpa using heq⟩)
  have hput := foldl_putDetail_eq D
    ((detailKeysFor s m.id).foldl deleteDetail s.details) hids
  have hfilter : (updateDocument s m D).details.filter (fun d => d.masterId = m.id)
      = D := by
    rw [hdet, hput, List.filter_append]
    have hleft : (((detailKeysFor s m.id).foldl deleteDetail s.details).filter
          (fun x => decide (x.id ∉ D.map (fun d => d.id)))).filter
            (fun d => d.masterId = m.id) = [] := by
      rw [List.filter_eq_nil_iff]
      intro a ha hpa
      exact hAfterNot a (List.mem_of_mem_filter ha) (by simpa using hpa)
    have hright : D.filter (fun d => d.masterId = m.id) = D := by
      rw [List.filter_eq_self]
      intro a ha
      simpa using hmid a ha
    rw [hleft, hright]
    rfl
  refine ⟨?_, List.sorted_insertionSort _ _, ?_, ?_, ?_⟩
  · unfold getDocumentDetails
    rw [hfilter]
    exact List.perm_insertionSort _ _
  · intro d hd hdm hdD hmem
    rw [hdet, hput] at hmem
    rcases List.mem_append.mp hmem with h | h
    · exact hAfterNot d (List.mem_of_mem_filter h) hdm
    · exact hdD h
  · rw [hmas]
    exact find?_putMaster s.masters m
  · rw [hmas]
    exact filter_putMaster_ne s.masters m

/-- The master edited in the C2 witness. -/
def exUpdM : DocMaster := mkMaster "u1" 5 SyncStatus.pending

/-- Store holding that master with details `[d1, d2]`. -/
def exUpdStore : Store :=
  { masters := [exUpdM],
    details := [mkDetail "d1" "u1" 1, mkDetail "d2" "u1" 2] }

/-- The replacement detail set `[d3]` of the C2 witness. -/
def exUpdNew : List DocDetail := [mkDetail "d3" "u1" 1]

/-- Witness for C2: the P2 scenario — replacing details `[d1, d2]` by `[d3]`. -/
theorem updateDocument_replaces_witness :
    (∀ d ∈ exUpdNew, d.masterId = exUpdM.id) ∧
    ((getDocumentDetails (updateDocument exUpdStore exUpdM exUpdNew) exUpdM.id).Perm
        exUpdNew ∧
     List.Sorted seqLe
       (getDocumentDetails (updateDocument exUpdStore exUpdM exUpdNew) exUpdM.id) ∧
     (∀ d ∈ exUpdStore.details, d.masterId = exUpdM.id → d ∉ exUpdNew →
        d ∉ (updateDocument exUpdStore exUpdM exUpdNew).details) ∧
     (updateDocument exUpdStore exUpdM exUpdNew).masters.find?
         (fun x => x.id = exUpdM.id) = some exUpdM ∧
     (updateDocument exUpdStore exUpdM exUpdNew).masters.filter
         (fun x => x.id ≠ exUpdM.id)
       = exUpdStore.masters.filter (fun x => x.id ≠ exUpdM.id)) :=
  ⟨by decide,
   updateDocument_replaces exUpdStore exUpdM exUpdNew (by decide) (by decide)⟩

/-- C10: `saveDocument` with an already-existing master id does not fail and is
not a pure insert: the master is overwritten by id (upsert), while the new
details are inserted alongside the previously stored details of that master —
nothing is deleted, so the master ends up with a mixed old-plus-new detail
set. -/
theorem saveDocument_upserts_and_merges (s : Store) (m : DocMaster)
    (D : List DocDetail)
    (hmid : ∀ d ∈ D, d.masterId = m.id)
    (hids : (D.map (fun d => d.id)).Nodup)
    (hfresh : ∀ d ∈ D, ∀ x ∈ s.details, x.id ≠ d.id)
    (hex : ∃ old ∈ s.masters, old.id = m.id) :
    (saveDocument s m D).masters.find? (fun x => x.id = m.id) = some m ∧
    (saveDocument s m D).masters.filter (fun x => x.id ≠ m.id)
      = s.masters.filter (fun x => x.id ≠ m.id) ∧
    (saveDocument s m D).details = s.details ++ D ∧
    (saveDocument s m D).details.filter (fun d => d.masterId = m.id)
      = s.details.filter (fun d => d.masterId = m.id) ++ D := by
  clear hex
  have hmas : (saveDocument s m D).masters = putMaster s.masters m := by
    rw [saveDocument_eq]
  have hdet : (saveDocument s m D).details = s.details ++ D := by
    have h0 : (saveDocument s m D).details = D.foldl putDetail s.details := by
      rw [saveDocument_eq]
    rw [h0, foldl_putDetail_eq D s.details hids]
    congr 1
    rw [List.filter_eq_self]
    intro x hx
    simp only [decide_eq_true_eq]
    intro hmem
    obtain ⟨d, hd, hdid⟩ := List.mem_map.mp hmem
    exact hfresh d hd x hx hdid.symm
  refine ⟨?_, ?_, hdet, ?_⟩
  · rw [hmas]
    exact find?_putMaster s.masters m
  · rw [hmas]
    exact filter_putMaster_ne s.masters m
  · rw [hdet, List.filter_append]
    congr 1
    rw [List.filter_eq_self]
    intro a ha
    simpa using hmid a ha

/-- The master saved a second time under an existing id in the C10 witness. -/
def exSaveM : DocMaster := mkMaster "u" 7 SyncStatus.pending

/-- Store already holding a master with id `"u"` and one old detail. -/
def exSaveStore : Store :=
  { masters := [mkMaster "u" 5 SyncStatus.failed],
    details := [mkDetail "dOld" "u" 1] }

/-- The new detail set of the C10 witness. -/
def exSaveNew : List DocDetail := [mkDetail "dNew" "u" 1]

/-- Witness for C10: re-saving id `"u"` overwrites the master and leaves the
old detail next to the new one. -/
theorem saveDocument_upserts_and_merges_witness :
    (∃ old ∈ exSaveStore.masters, old.id = exSaveM.id) ∧
    ((saveDocument exSaveStore exSaveM exSaveNew).masters.find?
        (fun x => x.id = exSaveM.id) = some exSaveM ∧
     (saveDocument exSaveStore exSaveM exSaveNew).masters.filter
         (fun x => x.id ≠ exSaveM.id)
       = exSaveStore.masters.filter (fun x => x.id ≠ exSaveM.id) ∧
     (saveDocument exSaveStore exSaveM exSaveNew).details
       = exSaveStore.details ++ exSaveNew ∧
     (saveDocument exSaveStore exSaveM exSaveNew).details.filter
         (fun d => d.masterId = exSaveM.id)
       = exSaveStore.details.filter (fun d => d.masterId = exSaveM.id) ++ exSaveNew) :=
  ⟨⟨mkMaster "u" 5 SyncStatus.failed, by decide, by decide⟩,
   saveDocument_upserts_and_merges exSaveStore exSaveM exSaveNew
     (by decide) (by decide) (by decide)
     ⟨mkMaster "u" 5 SyncStatus.failed, by decide, by decide⟩⟩

/-- Under distinct ids, the by-id filter finds exactly the stored record. -/
theorem filter_id_eq_of_nodup (l : List DocMaster) (data : DocMaster)
    (hwf : (l.map (fun m => m.id)).Nodup) (hmem : data ∈ l) :
    l.filter (fun x => x.id = data.id) = [data] := by
  induction l with
  | nil => cases hmem
  | cons a l ih =>
    rw [List.map_cons, List.nodup_cons] at hwf
    rcases List.mem_cons.mp hmem with h | h
    · subst h
      rw [List.filter_cons_of_pos (by simp)]
      have hrest : l.filter (fun x => x.id = data.id) = [] := by
        rw [List.filter_eq_nil_iff]
        intro x hx hpx
        exact hwf.1 ((by simpa using hpx : x.id = data.id) ▸ List.mem_map_of_mem _ hx)
      rw [hrest]
    · have hne : ¬ (a.id = data.id) := by
        intro he
        exact hwf.1 (he ▸ List.mem_map_of_mem _ h)
      rw [List.filter_cons_of_neg (by simpa using hne)]
      exact ih hwf.2 h

/-- C8: `setStatus` (the shared body of `markAsSynced`/`markAsFailed`) changes
only the targeted record's `syncStatus` — its other fields, every other master
and the whole detail store are untouched — and is a successful no-op when the
id is absent. -/
theorem setStatus_frame (s : Store) (mid : String) (st : SyncStatus)
    (hwf : wfMasters s) :
    (s.masters.find? (fun x => x.id = mid) = none → setStatus s mid st = s) ∧
    (∀ data, s.masters.find? (fun x => x.id = mid) = some data →
      (setStatus s mid st).details = s.details ∧
      (setStatus s mid st).masters.filter (fun x => x.id ≠ mid)
        = s.masters.filter (fun x => x.id ≠ mid) ∧
      (setStatus s mid st).masters.find? (fun x => x.id = mid)
        = some { data with syncStatus := st } ∧
      (setStatus s mid st).masters.length = s.masters.length) := by
  constructor
  · intro h
    unfold setStatus
    rw [h]
  · intro data hf
    have hdid : data.id = mid := by simpa using List.find?_some hf
    have hmem : data ∈ s.masters := List.mem_of_find?_eq_some hf
    have hmasters : (setStatus s mid st).masters
        = putMaster s.masters { data with syncStatus := st } := by
      unfold setStatus
      rw [hf]
    refine ⟨details_setStatus s mid st, ?_, ?_, ?_⟩
    · rw [hmasters, ← hdid]
      exact filter_putMaster_ne s.masters { data with syncStatus := st }
    · rw [hmasters, ← hdid]
      exact find?_putMaster s.masters { data with syncStatus := st }
    · rw [hmasters]
      unfold putMaster
      rw [List.length_append]
      have hsplit := length_filter_add_length_filter_not
        (fun x : DocMaster =>
          decide (x.id ≠ ({data with syncStatus := st} : DocMaster).id)) s.masters
      have hconv : s.masters.filter
            (fun x => !decide (x.id ≠ ({data with syncStatus := st} : DocMaster).id))
          = s.masters.filter (fun x => decide (x.id = data.id)) := by
        apply List.filter_congr
        intro x _
        by_cases h : x.id = data.id <;> simp [h]
      rw [hconv, filter_id_eq_of_nodup s.masters data hwf hmem] at hsplit
      simp only [List.length_cons, List.length_nil, List.length_singleton] at hsplit ⊢
      omega

/-- Store used by the C8 witness: two masters, one detail. -/
def exFrameStore : Store :=
  { masters := [mkMaster "a" 1 SyncStatus.pending, mkMaster "b" 2 SyncStatus.failed],
    details := [mkDetail "d1" "a" 1] }

/-- Witness for C8 at a concrete store, updating the status of record `"a"`. -/
theorem setStatus_frame_witness :
    wfMasters exFrameStore ∧
    ((exFrameStore.masters.find? (fun x => x.id = "a") = none →
        setStatus exFrameStore "a" SyncStatus.synced = exFrameStore) ∧
     (∀ data, exFrameStore.masters.find? (fun x => x.id = "a") = some data →
        (setStatus exFrameStore "a" SyncStatus.synced).details = exFrameStore.details ∧
        (setStatus exFrameStore "a" SyncStatus.synced).masters.filter
            (fun x => x.id ≠ "a")
          = exFrameStore.masters.filter (fun x => x.id ≠ "a") ∧
        (setStatus exFrameStore "a" SyncStatus.synced).masters.find?
            (fun x => x.id = "a")
          = some { data with syncStatus := SyncStatus.synced } ∧
        (setStatus exFrameStore "a" SyncStatus.synced).masters.length
          = exFrameStore.masters.length)) :=
  ⟨by unfold wfMasters; decide,
   setStatus_frame exFrameStore "a" SyncStatus.synced (by unfold wfMasters; decide)⟩

/-- Behaviour of the endpoint on a transaction id it has never committed. -/
theorem syncEndpoint_fresh (rs : RemoteState) (tid : String)
    (hid : tid ≠ "") (hfresh : ∀ p ∈ rs.records, p.1 ≠ tid) :
    syncEndpoint rs tid
      = ({ records := rs.records ++ [(tid, rs.nextId)], nextId := rs.nextId + 1 },
         Except.ok rs.nextId) := by
  unfold syncEndpoint
  rw [if_neg hid]
  have h : rs.records.find? (fun p => p.1 = tid) = none := by
    rw [List.find?_eq_none]
    intro p hp
    simpa using hfresh p hp
  rw [h]

/-- Behaviour of the endpoint on a transaction id it has already committed:
answer success with the existing remote id, insert nothing. -/
theorem syncEndpoint_existing (rs : RemoteState) (tid : String) (rid : Nat)
    (hid : tid ≠ "")
    (hfind : rs.records.find? (fun p => p.1 = tid) = some (tid, rid)) :
    syncEndpoint rs tid = (rs, Except.ok rid) := by
  unfold syncEndpoint
  rw [if_neg hid, hfind]

/-- C4: re-submitting the same record id creates no second remote record — the
endpoint answers success with the existing remote id — and the engine treats
that duplicate-detection success like a fresh one.  In the ambiguous-failure
scenario (server committed, response lost) the record is first marked `failed`;
the retry then ends `synced` with the remote store unchanged and holding exactly
one record, under the same remote id, for that transaction id. -/
theorem sync_idempotent_retry (s : Store) (rs : RemoteState) (doc : DocMaster)
    (s1 : Store) (rs1 : RemoteState) (s2 : Store) (rs2 : RemoteState)
    (hid : doc.id ≠ "")
    (hfresh : ∀ p ∈ rs.records, p.1 ≠ doc.id)
    (hsome : (statusOf s doc.id).isSome)
    (h1 : (s1, rs1) = syncOne s rs doc true false)
    (h2 : (s2, rs2) = syncOne s1 rs1 doc true true) :
    statusOf s1 doc.id = some SyncStatus.failed ∧
    rs1.records = rs.records ++ [(doc.id, rs.nextId)] ∧
    syncEndpoint rs1 doc.id = (rs1, Except.ok rs.nextId) ∧
    statusOf s2 doc.id = some SyncStatus.synced ∧
    rs2 = rs1 ∧
    (rs1.records.filter (fun p => p.1 = doc.id)).length = 1 := by
  have hep := syncEndpoint_fresh rs doc.id hid hfresh
  have h1' : (s1, rs1) = (markAsFailed s doc.id,
      ({ records := rs.records ++ [(doc.id, rs.nextId)],
         nextId := rs.nextId + 1 } : RemoteState)) := by
    rw [h1]
    unfold syncOne
    rw [if_pos rfl, hep]
    rfl
  have hs1 : s1 = markAsFailed s doc.id := by
    have := congrArg Prod.fst h1'
    simpa using this
  have hrs1 :
      rs1 = ({ records := rs.records ++ [(doc.id, rs.nextId)], nextId := rs.nextId + 1 } : RemoteState) := by
    have := congrArg Prod.snd h1'
    simpa using this
  have hc1 : statusOf s1 doc.id = some SyncStatus.failed := by
    rw [hs1]
    exact statusOf_setStatus_self s doc.id SyncStatus.failed hsome
  have hrec1 : rs1.records = rs.records ++ [(doc.id, rs.nextId)] := by
    rw [hrs1]
  have hfind1 : rs1.records.find? (fun p => p.1 = doc.id) = some (doc.id, rs.nextId) := by
    rw [hrec1, List.find?_append]
    have hnone : rs.records.find? (fun p => p.1 = doc.id) = none := by
      rw [List.find?_eq_none]
      intro p hp
      simpa using hfresh p hp
    rw [hnone]
    simp
  have hc3 : syncEndpoint rs1 doc.id = (rs1, Except.ok rs.nextId) :=
    syncEndpoint_existing rs1 doc.id rs.nextId hid hfind1
  have h2' : (s2, rs2) = (markAsSynced s1 doc.id, rs1) := by
    rw [h2]
    unfold syncOne
    rw [if_pos rfl, hc3]
    rfl
  have hs2 : s2 = markAsSynced s1 doc.id := by
    have := congrArg Prod.fst h2'
    simpa using this
  have hrs2 : rs2 = rs1 := by
    have := congrArg Prod.snd h2'
    simpa using this
  have hc4 : statusOf s2 doc.id = some SyncStatus.synced := by
    rw [hs2]
    apply statusOf_setStatus_self
    rw [hc1]
    rfl
  have hc6 : (rs1.records.filter (fun p => p.1 = doc.id)).length = 1 := by
    rw [hrec1, List.filter_append]
    have hnil : rs.records.filter (fun p => p.1 = doc.id) = [] := by
      rw [List.filter_eq_nil_iff]
      intro p hp
      simpa using hfresh p hp
    rw [hnil]
    simp
  exact ⟨hc1, hrec1, hc3, hc4, hrs2, hc6⟩

/-- The record retried in the C4 witness. -/
def exSyncDoc : DocMaster := mkMaster "t1" 1 SyncStatus.pending

/-- Local store of the C4 witness. -/
def exSyncStore : Store := { masters := [exSyncDoc], details := [] }

/-- Remote state of the C4 witness: empty, next generated id 100. -/
def exRemote : RemoteState := { records := [], nextId := 100 }

/-- First round trip of the C4 witness: the server commits, the response is
lost (ambiguous failure). -/
def exSync1 : Store × RemoteState := syncOne exSyncStore exRemote exSyncDoc true false

/-- Second round trip of the C4 witness: the retry, fully delivered. -/
def exSync2 : Store × RemoteState := syncOne exSync1.1 exSync1.2 exSyncDoc true true

/-- Witness for C4: the P5 scenario at a concrete store and remote state. -/
theorem sync_idempotent_retry_witness :
    exSyncDoc.id ≠ "" ∧
    (statusOf exSync1.1 exSyncDoc.id = some SyncStatus.failed ∧
     exSync1.2.records = exRemote.records ++ [(exSyncDoc.id, exRemote.nextId)] ∧
     syncEndpoint exSync1.2 exSyncDoc.id = (exSync1.2, Except.ok exRemote.nextId) ∧
     statusOf exSync2.1 exSyncDoc.id = some SyncStatus.synced ∧
     exSync2.2 = exSync1.2 ∧
     (exSync1.2.records.filter (fun p => p.1 = exSyncDoc.id)).length = 1) :=
  ⟨by decide,
   sync_idempotent_retry exSyncStore exRemote exSyncDoc exSync1.1 exSync1.2
     exSync2.1 exSync2.2 (by decide) (by decide) (by decide) rfl rfl⟩

/-- C9 (supporting theorem for the code bug): when `deleteDatabase` fires the
`blocked` event, `clearDatabase`'s promise is left pending — it is neither
rejected nor resolved, so the blocked condition is never signalled to the
caller through the returned result. -/
theorem clearDatabase_blocked_not_reported :
    clearDatabase DeleteDbEvent.blocked = PromiseState.pending ∧
    (∀ msg, clearDatabase DeleteDbEvent.blocked ≠ PromiseState.rejected msg) ∧
    clearDatabase DeleteDbEvent.blocked ≠ PromiseState.resolved :=
  ⟨rfl, fun _ h => PromiseState.noConfusion h, fun h => PromiseState.noConfusion h⟩

end DocSys
